import Mathlib

/-!
Shallow embedding of the core of `calibre-web-automated-book-downloader`
(Rust sources under `src/`), covering:

* `src/models.rs` — the `BookQueue` manager (`add`, `get_next`,
  `update_status`, `get_status`, `refresh_internal`, `set_status_timeout`).
  Rust `HashMap<String, _>` tables are embedded as association lists with
  unique keys (the uniqueness that a `HashMap` guarantees is carried as the
  well-formedness predicate `BookQueue.WF`); `HashSet<String>` is a
  duplicate-free list; `Instant` / `Duration` are `Nat` (seconds), where
  `Instant::duration_since` is truncating subtraction, matching its
  saturating behaviour.  The filesystem existence check
  `CONFIG.ingest_dir.join(format!("{}.epub", book_id)).exists()` is
  abstracted as a function `fs : String → Bool` of the book id (the path
  is determined by the id).  `Instant::now()` is an explicit `now : Nat`
  parameter on every operation that reads the clock.
* `src/book_manager.rs` — `parse_search_result_row`, `parse_book_info_page`,
  `extract_book_metadata` and `download_book`.  The `scraper` DOM is
  abstracted to exactly the projections those functions query (per-cell
  text-node lists, anchor `href`s, image `src`s, per-div descendant text).
-/

namespace CWA

/-- `QueueStatus` from `src/models.rs`. -/
inductive QueueStatus where
  | Queued
  | Downloading
  | Available
  | Error
  | Done
deriving DecidableEq, Repr

/-- `QueueStatus::to_string` from `src/models.rs`. -/
def QueueStatus.toString : QueueStatus → String
  | .Queued => "queued"
  | .Downloading => "downloading"
  | .Available => "available"
  | .Error => "error"
  | .Done => "done"

/-- `BookInfo` from `src/models.rs`.  `info` (Rust
`Option<HashMap<String, Vec<String>>>`) is embedded as an association
list so that equality stays decidable; `download_urls` keeps its order. -/
structure BookInfo where
  id : String
  title : String
  preview : Option String := none
  author : Option String := none
  publisher : Option String := none
  year : Option String := none
  language : Option String := none
  format : Option String := none
  size : Option String := none
  info : Option (List (String × List String)) := none
  download_urls : List String := []
deriving DecidableEq, Repr

/-- `BookInfo::new` from `src/models.rs`. -/
def BookInfo.new (id : String) (title : String) : BookInfo :=
  { id := id, title := title }

/-! ### Association-list model of `HashMap<String, α>`

`alUpdate` is `HashMap::insert` (replace in place if present, append if
absent), `alLookup` is `HashMap::get`, `alErase` is `HashMap::remove`
(on unique-key lists removing the single entry; modelled as dropping
every entry with the key). -/

def alUpdate (k : String) (v : α) : List (String × α) → List (String × α)
  | [] => [(k, v)]
  | (k', v') :: rest =>
      if k' = k then (k, v) :: rest else (k', v') :: alUpdate k v rest

def alLookup (k : String) : List (String × α) → Option α
  | [] => none
  | (k', v') :: rest => if k' = k then some v' else alLookup k rest

def alErase (k : String) (l : List (String × α)) : List (String × α) :=
  l.filter (fun p => p.1 ≠ k)

/-- The keys of an association list. -/
def alKeys (l : List (String × α)) : List String :=
  l.map Prod.fst

/-- `BookQueueData` from `src/models.rs`: the tables guarded by the
mutex.  `status_timeout` is in seconds, timestamps are `Nat` instants. -/
structure BookQueueData where
  queue : List String
  status : List (String × QueueStatus)
  book_data : List (String × BookInfo)
  status_timestamps : List (String × Nat)
  status_timeout : Nat
deriving DecidableEq, Repr

namespace BookQueue

/-- `BookQueue::new` from `src/models.rs` (the `CONFIG.status_timeout`
seconds value is an explicit parameter). -/
def new (timeout_secs : Nat) : BookQueueData :=
  { queue := []
    status := []
    book_data := []
    status_timestamps := []
    status_timeout := timeout_secs }

/-- `BookQueue::update_status_internal`: set status and refresh the
timestamp (`Instant::now()` is the explicit `now`). -/
def update_status_internal (book_id : String) (st : QueueStatus) (now : Nat)
    (d : BookQueueData) : BookQueueData :=
  { d with
    status := alUpdate book_id st d.status
    status_timestamps := alUpdate book_id now d.status_timestamps }

/-- `BookQueue::add`: insert into the pending set and the record table,
then reset the status to `Queued` with a fresh timestamp. -/
def add (book_id : String) (book : BookInfo) (now : Nat)
    (d : BookQueueData) : BookQueueData :=
  update_status_internal book_id .Queued now
    { d with
      queue := if book_id ∈ d.queue then d.queue else book_id :: d.queue
      book_data := alUpdate book_id book d.book_data }

/-- `BookQueue::get_next`: remove and return some pending identifier.
The Rust `HashSet` iterator yields an unspecified element; the embedding
determinises it as the head of the list (the contract makes no ordering
promise). -/
def get_next (d : BookQueueData) : Option String × BookQueueData :=
  match d.queue with
  | [] => (none, d)
  | book_id :: rest => (some book_id, { d with queue := rest })

/-- `BookQueue::update_status`: update status and timestamp only when the
identifier is already in the status table. -/
def update_status (book_id : String) (st : QueueStatus) (now : Nat)
    (d : BookQueueData) : BookQueueData :=
  if (alLookup book_id d.status).isSome then
    update_status_internal book_id st now d
  else
    d

/-- Pass 1 of `BookQueue::refresh_internal`, promotion half: the ids of
`Available` entries whose `<ingest-dir>/<id>.epub` artifact is gone. -/
def refreshToUpdate (fs : String → Bool) (d : BookQueueData) : List String :=
  alKeys (d.status.filter (fun p => p.2 = QueueStatus.Available && !(fs p.1)))

/-- The staleness test of `BookQueue::refresh_internal`:
a timestamp exists and `now.duration_since(ts) > status_timeout`. -/
def isStale (now : Nat) (d : BookQueueData) (book_id : String) : Bool :=
  match alLookup book_id d.status_timestamps with
  | some ts => now - ts > d.status_timeout
  | none => false

/-- Pass 1 of `BookQueue::refresh_internal`, removal half: the ids of
stale entries whose status is `Done`. -/
def refreshToRemove (now : Nat) (d : BookQueueData) : List String :=
  alKeys (d.status.filter (fun p => isStale now d p.1 && p.2 = QueueStatus.Done))

/-- Pass 2 of `BookQueue::refresh_internal`, promotions: each collected id
is set to `Done` with a fresh timestamp. -/
def applyUpdates (now : Nat) (ids : List String) (d : BookQueueData) :
    BookQueueData :=
  ids.foldl (fun d id => update_status_internal id .Done now d) d

/-- Pass 2 of `BookQueue::refresh_internal`, removals: each collected id
is deleted from the status, timestamp and record tables and the pending
set. -/
def applyRemovals (ids : List String) (d : BookQueueData) : BookQueueData :=
  ids.foldl
    (fun d id =>
      { d with
        status := alErase id d.status
        status_timestamps := alErase id d.status_timestamps
        book_data := alErase id d.book_data
        queue := d.queue.filter (fun q => q ≠ id) })
    d

/-- `BookQueue::refresh_internal`: two passes — first collect promotions
(`Available` with missing artifact) and removals (stale `Done`) from the
unmodified tables, then apply the promotions, then the removals. -/
def refresh_internal (fs : String → Bool) (now : Nat) (d : BookQueueData) :
    BookQueueData :=
  applyRemovals (refreshToRemove now d)
    (applyUpdates now (refreshToUpdate fs d) d)

/-- `BookQueue::refresh`: lock and delegate (the lock is the embedding's
sequential semantics). -/
def refresh (fs : String → Bool) (now : Nat) (d : BookQueueData) :
    BookQueueData :=
  refresh_internal fs now d

/-- `BookQueue::set_status_timeout`: hours, stored as seconds. -/
def set_status_timeout (hours : Nat) (d : BookQueueData) : BookQueueData :=
  { d with status_timeout := hours * 3600 }

/-- One group of the `BookQueue::get_status` snapshot: every entry of the
status table with the given status whose id also has a record, mapped to
a copy of that record. -/
def snapshotGroup (d : BookQueueData) (st : QueueStatus) :
    List (String × BookInfo) :=
  (d.status.filter (fun p => p.2 = st)).filterMap
    (fun p => (alLookup p.1 d.book_data).map (fun b => (p.1, b)))

/-- `BookQueue::get_status`: refresh first, then return the new state and
the snapshot grouped by status (the Rust result pre-populates all five
statuses, so the snapshot is total in `QueueStatus`). -/
def get_status (fs : String → Bool) (now : Nat) (d : BookQueueData) :
    BookQueueData × (QueueStatus → List (String × BookInfo)) :=
  let d2 := refresh_internal fs now d
  (d2, snapshotGroup d2)

/-- Representation invariant every `HashSet`/`HashMap`-backed state
satisfies: no duplicate pending ids, no duplicate keys in any table. -/
def WF (d : BookQueueData) : Prop :=
  d.queue.Nodup ∧ (alKeys d.status).Nodup ∧ (alKeys d.book_data).Nodup ∧
    (alKeys d.status_timestamps).Nodup

instance (d : BookQueueData) : Decidable (WF d) := by
  unfold WF; infer_instance

/-! ### The table-consistency invariant -/

/-- The spec's table-consistency invariant: the status, record and
timestamp tables have the same key set, and every pending id belongs to
it. -/
def tablesConsistent (d : BookQueueData) : Prop :=
  (alKeys d.status).toFinset = (alKeys d.book_data).toFinset ∧
    (alKeys d.status).toFinset = (alKeys d.status_timestamps).toFinset ∧
    ∀ k ∈ d.queue, k ∈ (alKeys d.status).toFinset

instance (d : BookQueueData) : Decidable (tablesConsistent d) := by
  unfold tablesConsistent; infer_instance

/-- All six public operations of the Queue Manager, as one step type. -/
inductive QueueOp where
  | add (book_id : String) (book : BookInfo) (now : Nat)
  | get_next
  | update_status (book_id : String) (st : QueueStatus) (now : Nat)
  | get_status (fs : String → Bool) (now : Nat)
  | refresh (fs : String → Bool) (now : Nat)
  | set_status_timeout (hours : Nat)

/-- The state reached after one Queue Manager operation. -/
def applyOp : QueueOp → BookQueueData → BookQueueData
  | .add id b now, d => add id b now d
  | .get_next, d => (get_next d).2
  | .update_status id st now, d => update_status id st now d
  | .get_status fs now, d => (get_status fs now d).1
  | .refresh fs now, d => refresh fs now d
  | .set_status_timeout h, d => set_status_timeout h d

end BookQueue

/-! ### `src/book_manager.rs` — search-result row extraction

A table cell is abstracted to the projections `parse_search_result_row`
makes with `scraper`: the cell's text nodes in document order
(`ElementRef::text`), the `href` attributes of its descendant anchors in
document order (`none` when an anchor has no `href`), and likewise the
`src` attributes of its descendant images. -/

structure SearchCell where
  texts : List String
  anchorHrefs : List (Option String)
  imgSrcs : List (Option String)
deriving DecidableEq, Repr

structure SearchRow where
  cells : List SearchCell
deriving DecidableEq, Repr

/-- `cells[i].text().next().unwrap_or("")`: the FIRST text node of a
cell, or the empty string. -/
def cellFirstText (c : SearchCell) : String :=
  (c.texts.head?).getD ""

/-- `parse_search_result_row` from `src/book_manager.rs`.  Rows with
fewer than eleven cells are skipped (`none`), as are rows whose first
cell has no anchor or whose first anchor has no `href`; the id is the
last `/`-segment of that `href` (Rust `split('/').last()`, which always
yields a segment). -/
def parse_search_result_row (row : SearchRow) : Option BookInfo :=
  match row.cells with
  | c0 :: c1 :: c2 :: c3 :: c4 :: _ :: _ :: c7 :: _ :: c9 :: c10 :: _ =>
    match c0.anchorHrefs.head? with
    | some (some href) =>
        some
          { id := (href.splitOn "/").getLastD ""
            preview := Option.join c0.imgSrcs.head?
            title := cellFirstText c1
            author := some (cellFirstText c2)
            publisher := some (cellFirstText c3)
            year := some (cellFirstText c4)
            language := some (cellFirstText c7)
            format := some (cellFirstText c9)
            size := some (cellFirstText c10)
            info := none
            download_urls := [] }
    | _ => none
  | _ => none

/-! ### `src/book_manager.rs` — detail-page extraction

A descendant div of the main container is abstracted to the projections
`parse_book_info_page` / `extract_book_metadata` make: its own text-node
sequence, the text-node sequences of its descendant divs (`sub_data`),
and, when it has a descendant span, the text-node sequences of the
descendant spans of that first span. -/

structure DivElem where
  texts : List String
  subDivTexts : List (List String)
  firstSpanSpans : Option (List (List String))
deriving DecidableEq, Repr

/-- The whole detail page, abstracted to what `parse_book_info_page`
queries: whether `body > main > div` matched, the `src` of the first
`div img` inside it, its descendant divs, and the `href`s of every
anchor in the document (`none` for an `href`-less anchor). -/
structure BookPage where
  hasMain : Bool
  previewSrc : Option String
  divs : List DivElem
  anchors : List (Option String)
deriving DecidableEq, Repr

/-- Append-to-existing-key insertion into the attribute bag:
`info.entry(key).or_insert_with(Vec::new).push(value)`. -/
def bagAdd (k : String) (v : String) :
    List (String × List String) → List (String × List String)
  | [] => [(k, [v])]
  | (k', vs) :: rest =>
      if k' = k then (k', vs ++ [v]) :: rest else (k', vs) :: bagAdd k v rest

/-- The paired-div half of `extract_book_metadata`: indices `0,2,4,...`
give keys, `1,3,5,...` values; a pair is kept only when both the key
cell and the value cell have a first text node (both trimmed). -/
def metaDivPairs : List (List String) → List (String × String)
  | a :: b :: rest =>
      (match a.head?, b.head? with
       | some k, some v => [(k.trim, v.trim)]
       | _, _ => []) ++ metaDivPairs rest
  | _ => []

/-- `Iterator::step_by(2)`: every other element, starting at index 0. -/
def everyOther : List α → List α
  | [] => []
  | [a] => [a]
  | a :: _ :: rest => a :: everyOther rest

/-- The span half of `extract_book_metadata`: every other descendant
span of the div's first span contributes its first text node as key and
its second as value, each defaulting to the empty string. -/
def metaSpanPairs (spans : List (List String)) : List (String × String) :=
  (everyOther spans).map
    (fun s => (((s.head?).getD "").trim, ((s.get? 1).getD "").trim))

/-- `extract_book_metadata` from `src/book_manager.rs`: per div, first
the paired-div key/values, then the span key/values, accumulated into
the bag in encounter order. -/
def extract_book_metadata (metadata_divs : List DivElem) :
    List (String × List String) :=
  metadata_divs.foldl
    (fun info div =>
      let info1 := (metaDivPairs div.subDivTexts).foldl
        (fun acc p => bagAdd p.1 p.2 acc) info
      match div.firstSpanSpans with
      | some spans =>
          (metaSpanPairs spans).foldl (fun acc p => bagAdd p.1 p.2 acc) info1
      | none => info1)
    []

/-- The outcome of `parse_book_info_page`: a record, the
missing-main-container `anyhow` error, or a Rust panic. -/
inductive ParseResult where
  | ok (book : BookInfo)
  | err (msg : String)
  | panicked
deriving DecidableEq, Repr

/-- `parse_book_info_page` from `src/book_manager.rs`.

* `start_div_id` is the index of the first div containing the marker
  glyph, defaulting to 3.
* `divs.get(start_div_id - 1)` uses release-mode `usize` wrapping: at
  `start_div_id = 0` the wrapped index is out of range, so the lookup is
  `None` and `format_div` defaults to the empty string.
* `char::is_numeric` is modelled as `Char.isDigit` (catalog size tokens
  are ASCII).
* `&divs[start_div_id + 3..]` panics when `start_div_id + 3` exceeds
  `divs.len()`; the embedding returns `.panicked` there. -/
def parse_book_info_page (page : BookPage) (book_id : String) : ParseResult :=
  if !page.hasMain then
    .err ("Failed to find main container for book ID: " ++ book_id)
  else
    let divs := page.divs
    let start_div_id :=
      (divs.findIdx? (fun d => d.texts.any (fun t => t.contains '🔍'))).getD 3
    let format_div :=
      if start_div_id = 0 then ""
      else ((divs.get? (start_div_id - 1)).map
        (fun d => String.join d.texts)).getD ""
    let format := (((format_div.splitOn ".").get? 1).bind
      (fun s => (s.splitOn ",").head?)).map (fun s => s.trim.toLower)
    let size := ((format_div.splitOn ",").find?
      (fun token => ((token.trim.toList.head?).map Char.isDigit).getD false)).map
      String.trim
    let urls := page.anchors.filterMap (fun a => a)
    if divs.length < start_div_id + 3 then .panicked
    else
      let info0 := extract_book_metadata (divs.drop (start_div_id + 3))
      .ok
        { id := book_id
          title := ((divs.get? start_div_id).map
            (fun d => String.join d.texts)).getD ""
          publisher := (divs.get? (start_div_id + 1)).map
            (fun d => String.join d.texts)
          author := (divs.get? (start_div_id + 2)).map
            (fun d => String.join d.texts)
          format := format
          size := size
          language := (alLookup "Language" info0).bind (fun v => v.get? 0)
          year := (alLookup "Year" info0).bind (fun v => v.get? 0)
          preview := page.previewSrc
          download_urls := urls
          info := some info0 }

/-! ### `src/book_manager.rs` — `download_book`

The network is a function `fetch : url → Option payload` (`none` models
`network::download_url` returning `Err`); the `tokio::fs::write` to
`<tmp-dir>/<id>.<format>` is modelled as succeeding, the written file
being the returned pair.  `none` overall is the
`Failed to download book` (all mirrors failed) error. -/

/-- `CONFIG.tmp_dir.join(format!("{}.{}", id, format.unwrap_or_default()))`. -/
def staging_path (tmp_dir : String) (book : BookInfo) : String :=
  tmp_dir ++ "/" ++ book.id ++ "." ++ (book.format.getD "")

/-- The url loop of `download_book`: first successful fetch is written
and ends the loop; a failed fetch falls through to the next url. -/
def download_book_from (fetch : String → Option (List Nat)) (path : String) :
    List String → Option (String × List Nat)
  | [] => none
  | url :: rest =>
    match fetch url with
    | some data => some (path, data)
    | none => download_book_from fetch path rest

/-- `download_book` from `src/book_manager.rs`. -/
def download_book (fetch : String → Option (List Nat)) (tmp_dir : String)
    (book : BookInfo) : Option (String × List Nat) :=
  download_book_from fetch (staging_path tmp_dir book) book.download_urls

/-- The empty search cell, the `getD` default used to state row claims
by cell index. -/
def emptyCell : SearchCell := ⟨[], [], []⟩

/-- A qualifying search row whose title cell holds two text nodes
("Book " and "Title"): the extractor keeps only the first. -/
def rowWithSplitTitle : SearchRow :=
  ⟨[⟨[], [some "/book1"], [some "p.jpg"]⟩,
    ⟨["Book ", "Title"], [], []⟩,
    ⟨["Author"], [], []⟩, ⟨["Publisher"], [], []⟩, ⟨["2021"], [], []⟩,
    ⟨[], [], []⟩, ⟨[], [], []⟩, ⟨["English"], [], []⟩, ⟨[], [], []⟩,
    ⟨["epub"], [], []⟩, ⟨["1.5MB"], [], []⟩]⟩

/-! ### Association-list lemmas -/

theorem alLookup_alUpdate (k k' : String) (v : α) (l : List (String × α)) :
    alLookup k (alUpdate k' v l) = if k' = k then some v else alLookup k l := by
  induction l with
  | nil => simp [alUpdate, alLookup]
  | cons a l ih =>
      obtain ⟨a1, a2⟩ := a
      by_cases h1 : a1 = k'
      · subst h1
        by_cases h2 : a1 = k <;> simp [alUpdate, alLookup, h2]
      · by_cases h2 : a1 = k
        · subst h2
          have : ¬ k' = a1 := fun h => h1 h.symm
          simp [alUpdate, alLookup, h1, this]
        · simp [alUpdate, alLookup, h1, h2, ih]

theorem alLookup_alErase (k k' : String) (l : List (String × α)) :
    alLookup k (alErase k' l) = if k' = k then none else alLookup k l := by
  induction l with
  | nil => simp [alErase, alLookup]
  | cons a l ih =>
      obtain ⟨a1, a2⟩ := a
      by_cases h1 : a1 = k'
      · subst h1
        by_cases h2 : a1 = k <;>
          simp_all [alErase, alLookup, List.filter_cons]
      · by_cases h2 : a1 = k
        · subst h2
          have : ¬ k' = a1 := fun h => h1 h.symm
          simp_all [alErase, alLookup, List.filter_cons]
        · simp_all [alErase, alLookup, List.filter_cons]

theorem alKeys_nil : alKeys ([] : List (String × α)) = [] := rfl

theorem alKeys_cons (p : String × α) (l : List (String × α)) :
    alKeys (p :: l) = p.1 :: alKeys l := rfl

theorem alKeys_alUpdate (k : String) (v : α) (l : List (String × α)) :
    alKeys (alUpdate k v l) =
      if k ∈ alKeys l then alKeys l else alKeys l ++ [k] := by
  induction l with
  | nil => simp [alUpdate, alKeys_nil, alKeys_cons]
  | cons a l ih =>
      obtain ⟨a1, a2⟩ := a
      by_cases h1 : a1 = k
      · subst h1
        simp [alUpdate, alKeys_cons]
      · have hka : k ≠ a1 := fun h => h1 h.symm
        have hstep : alKeys (alUpdate k v ((a1, a2) :: l)) =
            a1 :: alKeys (alUpdate k v l) := by
          simp [alUpdate, h1, alKeys_cons]
        rw [hstep, ih, alKeys_cons]
        by_cases h2 : k ∈ alKeys l <;> simp [List.mem_cons, hka, h2]

theorem alKeys_alErase (k : String) (l : List (String × α)) :
    alKeys (alErase k l) = (alKeys l).filter (fun x => x ≠ k) := by
  induction l with
  | nil => simp [alErase, alKeys_nil]
  | cons a l ih =>
      obtain ⟨a1, a2⟩ := a
      by_cases h1 : a1 = k
      · subst h1
        simpa [alErase, alKeys_cons, List.filter_cons] using ih
      · simpa [alErase, alKeys_cons, List.filter_cons, h1] using ih

theorem alKeys_nodup_alUpdate (k : String) (v : α) {l : List (String × α)}
    (h : (alKeys l).Nodup) : (alKeys (alUpdate k v l)).Nodup := by
  rw [alKeys_alUpdate]
  by_cases hk : k ∈ alKeys l
  · simpa [hk]
  · rw [if_neg hk]
    refine List.Nodup.append h (List.nodup_singleton k) ?_
    intro a ha hb
    simp at hb
    exact hk (hb ▸ ha)

theorem alKeys_nodup_alErase (k : String) {l : List (String × α)}
    (h : (alKeys l).Nodup) : (alKeys (alErase k l)).Nodup := by
  rw [alKeys_alErase]
  exact h.filter _

theorem alLookup_isSome_iff (k : String) (l : List (String × α)) :
    (alLookup k l).isSome ↔ k ∈ alKeys l := by
  induction l with
  | nil => simp [alLookup, alKeys_nil]
  | cons a l ih =>
      obtain ⟨a1, a2⟩ := a
      rw [alKeys_cons]
      by_cases h1 : a1 = k
      · subst h1
        simp [alLookup]
      · have hka : k ≠ a1 := fun h => h1 h.symm
        simp [alLookup, h1, List.mem_cons, hka, ih]

theorem mem_of_alLookup_eq_some :
    ∀ {l : List (String × α)} {k : String} {v : α},
      alLookup k l = some v → (k, v) ∈ l
  | [], k, v, h => by simp [alLookup] at h
  | (a1, a2) :: l, k, v, h => by
      by_cases h1 : a1 = k
      · subst h1
        simp [alLookup] at h
        simp [h]
      · simp only [alLookup, if_neg h1] at h
        exact List.mem_cons_of_mem _ (mem_of_alLookup_eq_some h)

theorem alLookup_eq_some_of_mem :
    ∀ {l : List (String × α)} {k : String} {v : α},
      (alKeys l).Nodup → (k, v) ∈ l → alLookup k l = some v
  | [], k, v, _, h => by simp at h
  | (a1, a2) :: l, k, v, hnd, h => by
      rw [alKeys_cons] at hnd
      rcases List.mem_cons.mp h with heq | hmem
      · injection heq with hk hv
        subst hk; subst hv
        simp [alLookup]
      · have hk_mem : k ∈ alKeys l := List.mem_map_of_mem Prod.fst hmem
        have h1 : a1 ≠ k := by
          rintro rfl
          exact (List.nodup_cons.mp hnd).1 hk_mem
        simp only [alLookup, if_neg h1]
        exact alLookup_eq_some_of_mem (List.nodup_cons.mp hnd).2 hmem

theorem mem_alKeys_filter {k : String} {l : List (String × α)}
    {p : String × α → Bool} (hnd : (alKeys l).Nodup) :
    k ∈ alKeys (l.filter p) ↔
      ∃ v, alLookup k l = some v ∧ p (k, v) = true := by
  constructor
  · intro h
    simp only [alKeys, List.mem_map] at h
    obtain ⟨⟨k', v⟩, hmem, hk⟩ := h
    obtain ⟨hm, hp⟩ := List.mem_filter.mp hmem
    cases hk
    exact ⟨v, alLookup_eq_some_of_mem hnd hm, hp⟩
  · rintro ⟨v, hv, hp⟩
    exact List.mem_map_of_mem Prod.fst
      (List.mem_filter.mpr ⟨mem_of_alLookup_eq_some hv, hp⟩)

/-! ### Lemmas about the two refresh passes -/

namespace BookQueue

theorem applyUpdates_nil (now : Nat) (d : BookQueueData) :
    applyUpdates now [] d = d := rfl

theorem applyUpdates_cons (now : Nat) (id : String) (ids : List String)
    (d : BookQueueData) :
    applyUpdates now (id :: ids) d =
      applyUpdates now ids (update_status_internal id .Done now d) := rfl

theorem applyRemovals_nil (d : BookQueueData) : applyRemovals [] d = d := rfl

theorem applyRemovals_cons (id : String) (ids : List String)
    (d : BookQueueData) :
    applyRemovals (id :: ids) d =
      applyRemovals ids
        { d with
          status := alErase id d.status
          status_timestamps := alErase id d.status_timestamps
          book_data := alErase id d.book_data
          queue := d.queue.filter (fun q => q ≠ id) } := rfl

theorem applyUpdates_status_lookup (now : Nat) (k : String) :
    ∀ (ids : List String) (d : BookQueueData),
      alLookup k (applyUpdates now ids d).status =
        if k ∈ ids then some .Done else alLookup k d.status
  | [], d => by simp [applyUpdates_nil]
  | id :: ids, d => by
      rw [applyUpdates_cons, applyUpdates_status_lookup now k ids]
      by_cases h1 : k ∈ ids
      · simp [h1, List.mem_cons]
      · simp only [update_status_internal, h1, if_false,
          alLookup_alUpdate, List.mem_cons]
        by_cases h2 : id = k
        · subst h2; simp
        · have h3 : ¬ k = id := fun h => h2 h.symm
          simp [h2, h3]

theorem applyUpdates_ts_lookup (now : Nat) (k : String) :
    ∀ (ids : List String) (d : BookQueueData),
      alLookup k (applyUpdates now ids d).status_timestamps =
        if k ∈ ids then some now else alLookup k d.status_timestamps
  | [], d => by simp [applyUpdates_nil]
  | id :: ids, d => by
      rw [applyUpdates_cons, applyUpdates_ts_lookup now k ids]
      by_cases h1 : k ∈ ids
      · simp [h1, List.mem_cons]
      · simp only [update_status_internal, h1, if_false,
          alLookup_alUpdate, List.mem_cons]
        by_cases h2 : id = k
        · subst h2; simp
        · have h3 : ¬ k = id := fun h => h2 h.symm
          simp [h2, h3]

theorem applyUpdates_book_data (now : Nat) :
    ∀ (ids : List String) (d : BookQueueData),
      (applyUpdates now ids d).book_data = d.book_data
  | [], d => rfl
  | id :: ids, d => by
      rw [applyUpdates_cons, applyUpdates_book_data now ids]
      rfl

theorem applyUpdates_queue (now : Nat) :
    ∀ (ids : List String) (d : BookQueueData),
      (applyUpdates now ids d).queue = d.queue
  | [], d => rfl
  | id :: ids, d => by
      rw [applyUpdates_cons, applyUpdates_queue now ids]
      rfl

theorem applyUpdates_timeout (now : Nat) :
    ∀ (ids : List String) (d : BookQueueData),
      (applyUpdates now ids d).status_timeout = d.status_timeout
  | [], d => rfl
  | id :: ids, d => by
      rw [applyUpdates_cons, applyUpdates_timeout now ids]
      rfl

theorem applyRemovals_status_lookup (k : String) :
    ∀ (ids : List String) (d : BookQueueData),
      alLookup k (applyRemovals ids d).status =
        if k ∈ ids then none else alLookup k d.status
  | [], d => by simp [applyRemovals_nil]
  | id :: ids, d => by
      rw [applyRemovals_cons, applyRemovals_status_lookup k ids]
      by_cases h1 : k ∈ ids
      · simp [h1, List.mem_cons]
      · simp only [h1, if_false, alLookup_alErase, List.mem_cons]
        by_cases h2 : id = k
        · subst h2; simp
        · have h3 : ¬ k = id := fun h => h2 h.symm
          simp [h2, h3]

theorem applyRemovals_ts_lookup (k : String) :
    ∀ (ids : List String) (d : BookQueueData),
      alLookup k (applyRemovals ids d).status_timestamps =
        if k ∈ ids then none else alLookup k d.status_timestamps
  | [], d => by simp [applyRemovals_nil]
  | id :: ids, d => by
      rw [applyRemovals_cons, applyRemovals_ts_lookup k ids]
      by_cases h1 : k ∈ ids
      · simp [h1, List.mem_cons]
      · simp only [h1, if_false, alLookup_alErase, List.mem_cons]
        by_cases h2 : id = k
        · subst h2; simp
        · have h3 : ¬ k = id := fun h => h2 h.symm
          simp [h2, h3]

theorem applyRemovals_book_lookup (k : String) :
    ∀ (ids : List String) (d : BookQueueData),
      alLookup k (applyRemovals ids d).book_data =
        if k ∈ ids then none else alLookup k d.book_data
  | [], d => by simp [applyRemovals_nil]
  | id :: ids, d => by
      rw [applyRemovals_cons, applyRemovals_book_lookup k ids]
      by_cases h1 : k ∈ ids
      · simp [h1, List.mem_cons]
      · simp only [h1, if_false, alLookup_alErase, List.mem_cons]
        by_cases h2 : id = k
        · subst h2; simp
        · have h3 : ¬ k = id := fun h => h2 h.symm
          simp [h2, h3]

theorem applyRemovals_queue_mem (k : String) :
    ∀ (ids : List String) (d : BookQueueData),
      (k ∈ (applyRemovals ids d).queue ↔ k ∈ d.queue ∧ k ∉ ids)
  | [], d => by simp [applyRemovals_nil]
  | id :: ids, d => by
      rw [applyRemovals_cons, applyRemovals_queue_mem k ids]
      simp only [List.mem_filter, List.mem_cons, decide_eq_true_eq]
      constructor
      · rintro ⟨⟨hq, hne⟩, hnotin⟩
        exact ⟨hq, by rintro (rfl | h) <;> [exact hne rfl; exact hnotin h]⟩
      · rintro ⟨hq, hnotin⟩
        exact ⟨⟨hq, fun h => hnotin (Or.inl h)⟩, fun h => hnotin (Or.inr h)⟩

theorem applyRemovals_timeout :
    ∀ (ids : List String) (d : BookQueueData),
      (applyRemovals ids d).status_timeout = d.status_timeout
  | [], d => rfl
  | id :: ids, d => by
      rw [applyRemovals_cons, applyRemovals_timeout ids]

theorem mem_alKeys {k : String} {l : List (String × α)} :
    k ∈ alKeys l ↔ ∃ v, (k, v) ∈ l := by
  constructor
  · intro h
    obtain ⟨⟨k', v⟩, hm, hk⟩ := List.mem_map.mp h
    cases hk
    exact ⟨v, hm⟩
  · rintro ⟨v, hm⟩
    exact List.mem_map_of_mem Prod.fst hm

theorem mem_refreshToUpdate {fs : String → Bool} {d : BookQueueData}
    {k : String} (hnd : (alKeys d.status).Nodup) :
    k ∈ refreshToUpdate fs d ↔
      alLookup k d.status = some .Available ∧ fs k = false := by
  rw [refreshToUpdate, mem_alKeys_filter hnd]
  constructor
  · rintro ⟨v, hv, hp⟩
    simp only [Bool.and_eq_true, decide_eq_true_eq, Bool.not_eq_true'] at hp
    exact ⟨hp.1 ▸ hv, hp.2⟩
  · rintro ⟨hv, hfs⟩
    exact ⟨.Available, hv, by simp [hfs]⟩

theorem mem_refreshToRemove {now : Nat} {d : BookQueueData}
    {k : String} (hnd : (alKeys d.status).Nodup) :
    k ∈ refreshToRemove now d ↔
      alLookup k d.status = some .Done ∧ isStale now d k = true := by
  rw [refreshToRemove, mem_alKeys_filter hnd]
  constructor
  · rintro ⟨v, hv, hp⟩
    simp only [Bool.and_eq_true, decide_eq_true_eq] at hp
    exact ⟨hp.2 ▸ hv, hp.1⟩
  · rintro ⟨hv, hst⟩
    exact ⟨.Done, hv, by simp [hst]⟩

/-- How one `refresh_internal` call rewrites the status of each id:
`Available` entries follow the artifact check, stale `Done` entries are
removed, everything else is untouched. -/
theorem refresh_status_lookup (fs : String → Bool) (now : Nat)
    (d : BookQueueData) (k : String) (hnd : (alKeys d.status).Nodup) :
    alLookup k (refresh_internal fs now d).status =
      match alLookup k d.status with
      | some .Available => if fs k then some .Available else some .Done
      | some .Done => if isStale now d k then none else some .Done
      | o => o := by
  rw [refresh_internal, applyRemovals_status_lookup,
    applyUpdates_status_lookup]
  by_cases hr : k ∈ refreshToRemove now d
  · obtain ⟨hst, hstale⟩ := (mem_refreshToRemove hnd).mp hr
    simp [hr, hst, hstale]
  · by_cases hu : k ∈ refreshToUpdate fs d
    · obtain ⟨hst, hfs⟩ := (mem_refreshToUpdate hnd).mp hu
      simp [hr, hu, hst, hfs]
    · rw [if_neg hr, if_neg hu]
      cases hst : alLookup k d.status with
      | none => rfl
      | some st =>
          cases st with
          | Available =>
              have hfs : fs k = true := by
                by_contra hfs
                exact hu ((mem_refreshToUpdate hnd).mpr
                  ⟨hst, Bool.not_eq_true _ ▸ hfs⟩)
              simp [hfs]
          | Done =>
              have hstale : ¬ isStale now d k = true := by
                intro hstale
                exact hr ((mem_refreshToRemove hnd).mpr ⟨hst, hstale⟩)
              simp [hstale]
          | Queued => rfl
          | Downloading => rfl
          | Error => rfl

/-- How one `refresh_internal` call rewrites the timestamp of each id:
promotions stamp `now`, removals delete, everything else keeps its
timestamp. -/
theorem refresh_ts_lookup (fs : String → Bool) (now : Nat)
    (d : BookQueueData) (k : String) (hnd : (alKeys d.status).Nodup) :
    alLookup k (refresh_internal fs now d).status_timestamps =
      match alLookup k d.status with
      | some .Available =>
          if fs k then alLookup k d.status_timestamps else some now
      | some .Done =>
          if isStale now d k then none else alLookup k d.status_timestamps
      | _ => alLookup k d.status_timestamps := by
  rw [refresh_internal, applyRemovals_ts_lookup, applyUpdates_ts_lookup]
  by_cases hr : k ∈ refreshToRemove now d
  · obtain ⟨hst, hstale⟩ := (mem_refreshToRemove hnd).mp hr
    simp [hr, hst, hstale]
  · by_cases hu : k ∈ refreshToUpdate fs d
    · obtain ⟨hst, hfs⟩ := (mem_refreshToUpdate hnd).mp hu
      simp [hr, hu, hst, hfs]
    · rw [if_neg hr, if_neg hu]
      cases hst : alLookup k d.status with
      | none => rfl
      | some st =>
          cases st with
          | Available =>
              have hfs : fs k = true := by
                by_contra hfs
                exact hu ((mem_refreshToUpdate hnd).mpr
                  ⟨hst, Bool.not_eq_true _ ▸ hfs⟩)
              simp [hfs]
          | Done =>
              have hstale : ¬ isStale now d k = true := by
                intro hstale
                exact hr ((mem_refreshToRemove hnd).mpr ⟨hst, hstale⟩)
              simp [hstale]
          | Queued => rfl
          | Downloading => rfl
          | Error => rfl

/-- How one `refresh_internal` call rewrites the record table: only the
removal of a stale `Done` id deletes a record. -/
theorem refresh_book_lookup (fs : String → Bool) (now : Nat)
    (d : BookQueueData) (k : String) (hnd : (alKeys d.status).Nodup) :
    alLookup k (refresh_internal fs now d).book_data =
      if alLookup k d.status = some .Done ∧ isStale now d k = true then none
      else alLookup k d.book_data := by
  rw [refresh_internal, applyRemovals_book_lookup, applyUpdates_book_data]
  by_cases hr : k ∈ refreshToRemove now d
  · simp [hr, (mem_refreshToRemove hnd).mp hr]
  · rw [if_neg hr, if_neg (fun h => hr ((mem_refreshToRemove hnd).mpr h))]

/-- How one `refresh_internal` call rewrites the pending set: only the
removal of a stale `Done` id deletes a pending entry. -/
theorem refresh_queue_mem (fs : String → Bool) (now : Nat)
    (d : BookQueueData) (k : String) (hnd : (alKeys d.status).Nodup) :
    k ∈ (refresh_internal fs now d).queue ↔
      k ∈ d.queue ∧
        ¬ (alLookup k d.status = some .Done ∧ isStale now d k = true) := by
  rw [refresh_internal, applyRemovals_queue_mem, applyUpdates_queue,
    mem_refreshToRemove hnd]

theorem set_status_timeout_status (hours : Nat) (d : BookQueueData) :
    (set_status_timeout hours d).status = d.status := rfl

theorem set_status_timeout_ts (hours : Nat) (d : BookQueueData) :
    (set_status_timeout hours d).status_timestamps =
      d.status_timestamps := rfl

/-- `refresh_internal` keeps the configured timeout. -/
theorem refresh_timeout (fs : String → Bool) (now : Nat)
    (d : BookQueueData) :
    (refresh_internal fs now d).status_timeout = d.status_timeout := by
  rw [refresh_internal, applyRemovals_timeout, applyUpdates_timeout]

/-! ### Preservation of the representation invariant `WF` -/

theorem WF_update_status_internal {d : BookQueueData} (id : String)
    (st : QueueStatus) (now : Nat) (h : WF d) :
    WF (update_status_internal id st now d) := by
  obtain ⟨h1, h2, h3, h4⟩ := h
  exact ⟨h1, alKeys_nodup_alUpdate id st h2, h3,
    alKeys_nodup_alUpdate id now h4⟩

theorem WF_add {d : BookQueueData} (id : String) (b : BookInfo) (now : Nat)
    (h : WF d) : WF (add id b now d) := by
  obtain ⟨h1, h2, h3, h4⟩ := h
  refine WF_update_status_internal id .Queued now ⟨?_, h2,
    alKeys_nodup_alUpdate id b h3, h4⟩
  by_cases hq : id ∈ d.queue
  · simpa [hq] using h1
  · rw [if_neg hq]
    exact List.nodup_cons.mpr ⟨hq, h1⟩

theorem WF_get_next {d : BookQueueData} (h : WF d) : WF (get_next d).2 := by
  obtain ⟨h1, h2, h3, h4⟩ := h
  cases hq : d.queue with
  | nil =>
      have heq : (get_next d).2 = d := by simp [get_next, hq]
      rw [heq]
      exact ⟨h1, h2, h3, h4⟩
  | cons id rest =>
      have heq : (get_next d).2 = { d with queue := rest } := by
        simp [get_next, hq]
      rw [heq]
      exact ⟨(List.nodup_cons.mp (hq ▸ h1)).2, h2, h3, h4⟩

theorem WF_update_status {d : BookQueueData} (id : String)
    (st : QueueStatus) (now : Nat) (h : WF d) :
    WF (update_status id st now d) := by
  rw [update_status]
  by_cases hc : (alLookup id d.status).isSome
  · simpa [hc] using WF_update_status_internal id st now h
  · simpa [hc] using h

theorem WF_applyUpdates (now : Nat) :
    ∀ (ids : List String) {d : BookQueueData}, WF d →
      WF (applyUpdates now ids d)
  | [], d, h => h
  | id :: ids, d, h => by
      rw [applyUpdates_cons]
      exact WF_applyUpdates now ids (WF_update_status_internal id .Done now h)

theorem WF_applyRemovals :
    ∀ (ids : List String) {d : BookQueueData}, WF d →
      WF (applyRemovals ids d)
  | [], d, h => h
  | id :: ids, d, h => by
      obtain ⟨h1, h2, h3, h4⟩ := h
      rw [applyRemovals_cons]
      exact WF_applyRemovals ids
        ⟨h1.filter _, alKeys_nodup_alErase id h2,
          alKeys_nodup_alErase id h3, alKeys_nodup_alErase id h4⟩

theorem WF_refresh_internal (fs : String → Bool) (now : Nat)
    {d : BookQueueData} (h : WF d) : WF (refresh_internal fs now d) := by
  rw [refresh_internal]
  exact WF_applyRemovals _ (WF_applyUpdates now _ h)

theorem WF_set_status_timeout (hours : Nat) {d : BookQueueData}
    (h : WF d) : WF (set_status_timeout hours d) := h

/-! ### The `get_status` snapshot -/

theorem alKeys_filterMap_sublist (l : List (String × β))
    (g : String → Option γ) :
    (alKeys (l.filterMap (fun p => (g p.1).map (fun b => (p.1, b))))).Sublist
      (alKeys l) := by
  induction l with
  | nil => simp [alKeys_nil]
  | cons p l ih =>
      rw [List.filterMap_cons]
      cases hg : g p.1 with
      | none =>
          simp only [Option.map_none']
          exact (alKeys_cons p l) ▸ ih.cons p.1
      | some b =>
          simp only [Option.map_some']
          rw [alKeys_cons, alKeys_cons]
          exact ih.cons₂ p.1

theorem alKeys_snapshotGroup_sublist (d : BookQueueData) (st : QueueStatus) :
    (alKeys (snapshotGroup d st)).Sublist (alKeys d.status) :=
  (alKeys_filterMap_sublist (d.status.filter (fun p => p.2 = st))
    (fun k => alLookup k d.book_data)).trans
    (List.Sublist.map Prod.fst (List.filter_sublist d.status))

theorem alKeys_snapshotGroup_nodup {d : BookQueueData}
    (hnd : (alKeys d.status).Nodup) (st : QueueStatus) :
    (alKeys (snapshotGroup d st)).Nodup :=
  hnd.sublist (alKeys_snapshotGroup_sublist d st)

theorem mem_snapshotGroup {d : BookQueueData} {st : QueueStatus}
    {k : String} {b : BookInfo} (hnd : (alKeys d.status).Nodup) :
    (k, b) ∈ snapshotGroup d st ↔
      alLookup k d.status = some st ∧ alLookup k d.book_data = some b := by
  rw [snapshotGroup, List.mem_filterMap]
  constructor
  · rintro ⟨⟨k', st'⟩, hmem, hf⟩
    obtain ⟨hm, hp⟩ := List.mem_filter.mp hmem
    simp only [decide_eq_true_eq] at hp
    subst hp
    rw [Option.map_eq_some'] at hf
    obtain ⟨b', hb', hpair⟩ := hf
    injection hpair with hk hb
    subst hk; subst hb
    exact ⟨alLookup_eq_some_of_mem hnd hm, hb'⟩
  · rintro ⟨hst, hb⟩
    refine ⟨(k, st), List.mem_filter.mpr ⟨mem_of_alLookup_eq_some hst,
      by simp⟩, ?_⟩
    simp [hb]


/-- Pointwise reformulation of `tablesConsistent` in terms of lookups. -/
theorem tablesConsistent_iff (d : BookQueueData) :
    tablesConsistent d ↔
      ((∀ k, (alLookup k d.status).isSome ↔
          (alLookup (α := BookInfo) k d.book_data).isSome) ∧
        (∀ k, (alLookup k d.status).isSome ↔
          (alLookup (α := Nat) k d.status_timestamps).isSome) ∧
        ∀ k, k ∈ d.queue → (alLookup k d.status).isSome) := by
  unfold tablesConsistent
  simp only [Finset.ext_iff, List.mem_toFinset, ← alLookup_isSome_iff]


theorem WF_applyOp (op : QueueOp) {d : BookQueueData} (h : WF d) :
    WF (applyOp op d) := by
  cases op with
  | add id b now => exact WF_add id b now h
  | get_next => exact WF_get_next h
  | update_status id st now => exact WF_update_status id st now h
  | get_status fs now => exact WF_refresh_internal fs now h
  | refresh fs now => exact WF_refresh_internal fs now h
  | set_status_timeout hrs => exact WF_set_status_timeout hrs h

theorem tablesConsistent_add {d : BookQueueData} (id : String)
    (b : BookInfo) (now : Nat) (h : tablesConsistent d) :
    tablesConsistent (add id b now d) := by
  rw [tablesConsistent_iff] at h ⊢
  obtain ⟨h1, h2, h3⟩ := h
  refine ⟨fun k => ?_, fun k => ?_, fun k hk => ?_⟩
  · by_cases hik : id = k <;>
      simp [add, update_status_internal, alLookup_alUpdate, hik, h1 k]
  · by_cases hik : id = k <;>
      simp [add, update_status_internal, alLookup_alUpdate, hik, h2 k]
  · by_cases hik : id = k
    · simp [add, update_status_internal, alLookup_alUpdate, hik]
    · have hkq : k ∈ d.queue := by
        simp only [add, update_status_internal] at hk
        by_cases hq2 : id ∈ d.queue
        · simpa [hq2] using hk
        · rcases (by simpa [hq2] using hk : k = id ∨ k ∈ d.queue) with rfl | hmem
          · exact absurd rfl hik
          · exact hmem
      simp only [add, update_status_internal, alLookup_alUpdate, hik,
        if_false]
      simpa [hik] using h3 k hkq

theorem tablesConsistent_get_next {d : BookQueueData}
    (h : tablesConsistent d) : tablesConsistent (get_next d).2 := by
  rw [tablesConsistent_iff] at h ⊢
  obtain ⟨h1, h2, h3⟩ := h
  cases hq : d.queue with
  | nil =>
      have heq : (get_next d).2 = d := by simp [get_next, hq]
      rw [heq]
      exact ⟨h1, h2, h3⟩
  | cons id rest =>
      have heq : (get_next d).2 = { d with queue := rest } := by
        simp [get_next, hq]
      rw [heq]
      exact ⟨h1, h2, fun k hk => h3 k (by rw [hq]; exact List.mem_cons_of_mem _ hk)⟩

theorem tablesConsistent_update_status {d : BookQueueData} (id : String)
    (st : QueueStatus) (now : Nat) (h : tablesConsistent d) :
    tablesConsistent (update_status id st now d) := by
  rw [update_status]
  by_cases hc : (alLookup id d.status).isSome
  · rw [if_pos hc]
    rw [tablesConsistent_iff] at h ⊢
    obtain ⟨h1, h2, h3⟩ := h
    refine ⟨fun k => ?_, fun k => ?_, fun k hk => ?_⟩
    · by_cases hik : id = k
      · subst hik
        simp [update_status_internal, alLookup_alUpdate, ← h1 id, hc]
      · simp [update_status_internal, alLookup_alUpdate, hik, h1 k]
    · by_cases hik : id = k <;>
        simp [update_status_internal, alLookup_alUpdate, hik, h2 k]
    · by_cases hik : id = k
      · simp [update_status_internal, alLookup_alUpdate, hik]
      · simpa [update_status_internal, alLookup_alUpdate, hik] using
          h3 k hk
  · rw [if_neg hc]
    exact h

theorem tablesConsistent_refresh_internal {d : BookQueueData}
    (fs : String → Bool) (now : Nat) (hWF : WF d)
    (h : tablesConsistent d) :
    tablesConsistent (refresh_internal fs now d) := by
  have hnd := hWF.2.1
  rw [tablesConsistent_iff] at h ⊢
  obtain ⟨h1, h2, h3⟩ := h
  refine ⟨fun k => ?_, fun k => ?_, fun k hk => ?_⟩
  · rw [refresh_status_lookup fs now d k hnd, refresh_book_lookup fs now d k hnd]
    cases hst : alLookup k d.status with
    | none =>
        have hb : alLookup k d.book_data = none := by
          have := h1 k
          rw [hst] at this
          simpa using this.symm
        simp [hb, hst]
    | some st =>
        have hb : (alLookup k d.book_data).isSome := by
          rw [← h1 k, hst]; rfl
        cases st with
        | Available => by_cases hfs : fs k <;> simp [hfs, hb]
        | Done =>
            by_cases hstale : isStale now d k = true <;>
              simp [hstale, hb]
        | Queued => simpa using hb
        | Downloading => simpa using hb
        | Error => simpa using hb
  · rw [refresh_status_lookup fs now d k hnd, refresh_ts_lookup fs now d k hnd]
    cases hst : alLookup k d.status with
    | none =>
        have ht : alLookup k d.status_timestamps = none := by
          have := h2 k
          rw [hst] at this
          simpa using this.symm
        simp [ht, hst]
    | some st =>
        have ht : (alLookup k d.status_timestamps).isSome := by
          rw [← h2 k, hst]; rfl
        cases st with
        | Available => by_cases hfs : fs k <;> simp [hfs, ht]
        | Done =>
            by_cases hstale : isStale now d k = true <;>
              simp [hstale, ht]
        | Queued => simpa using ht
        | Downloading => simpa using ht
        | Error => simpa using ht
  · rw [refresh_queue_mem fs now d k hnd] at hk
    obtain ⟨hkq, hnot⟩ := hk
    have hsome := h3 k hkq
    rw [refresh_status_lookup fs now d k hnd]
    cases hst : alLookup k d.status with
    | none => rw [hst] at hsome; simp at hsome
    | some st =>
        cases st with
        | Available => by_cases hfs : fs k <;> simp [hfs]
        | Done =>
            have hstale : ¬ isStale now d k = true := fun hstale =>
              hnot ⟨hst, hstale⟩
            simp [hstale]
        | Queued => simp
        | Downloading => simp
        | Error => simp

/-! ### Claim theorems for the Queue Manager -/

/-- Claim C4: `update_status` on an identifier that is not in the status
table leaves the whole queue state — pending set, status table, record
table, timestamp table and configured TTL — exactly unchanged. -/
theorem claim_C4 (d : BookQueueData) (i : String) (st : QueueStatus)
    (now : Nat) (h : alLookup i d.status = none) :
    update_status i st now d = d := by
  rw [update_status, h]
  rfl

theorem claim_C4_witness :
    alLookup "ghost" (new 3600).status = none ∧
      update_status "ghost" .Downloading 7 (new 3600) = new 3600 :=
  ⟨rfl, claim_C4 (new 3600) "ghost" .Downloading 7 rfl⟩

/-- Claim C5: every Queue Manager operation (`add`, `get_next`,
`update_status`, `get_status`, `refresh`, `set_status_timeout`)
preserves the table-consistency invariant — equal key sets for the
status, record and timestamp tables, pending set contained in them —
and the `HashMap`/`HashSet` representation invariant, so TTL eviction
never leaves a dangling partial entry. -/
theorem claim_C5 (op : QueueOp) (d : BookQueueData) (hWF : WF d)
    (hc : tablesConsistent d) :
    tablesConsistent (applyOp op d) ∧ WF (applyOp op d) := by
  refine ⟨?_, WF_applyOp op hWF⟩
  cases op with
  | add id b now => exact tablesConsistent_add id b now hc
  | get_next => exact tablesConsistent_get_next hc
  | update_status id st now => exact tablesConsistent_update_status id st now hc
  | get_status fs now => exact tablesConsistent_refresh_internal fs now hWF hc
  | refresh fs now => exact tablesConsistent_refresh_internal fs now hWF hc
  | set_status_timeout hrs => exact hc

theorem claim_C5_witness :
    WF (new 3600) ∧ tablesConsistent (new 3600) ∧
      (tablesConsistent
          (applyOp (.add "b1" (BookInfo.new "b1" "T") 5) (new 3600)) ∧
        WF (applyOp (.add "b1" (BookInfo.new "b1" "T") 5) (new 3600))) :=
  ⟨by decide, by decide,
    claim_C5 (.add "b1" (BookInfo.new "b1" "T") 5) (new 3600)
      (by decide) (by decide)⟩

/-- Claim C10: `get_next()` returns `none` exactly when the pending set
is empty (and is then a no-op); when it returns `some id`, its only
state change is removing `id` from the pending set — the status, record
and timestamp tables and the TTL are untouched, and a job that was
`Queued` is still `Queued`. -/
theorem claim_C10 (d : BookQueueData) :
    ((get_next d).1 = none ↔ d.queue = []) ∧
      ((get_next d).1 = none → (get_next d).2 = d) ∧
      ∀ id, (get_next d).1 = some id →
        id ∈ d.queue ∧
          (get_next d).2.queue = d.queue.erase id ∧
          (get_next d).2.status = d.status ∧
          (get_next d).2.book_data = d.book_data ∧
          (get_next d).2.status_timestamps = d.status_timestamps ∧
          (get_next d).2.status_timeout = d.status_timeout ∧
          (alLookup id d.status = some .Queued →
            alLookup id (get_next d).2.status = some .Queued) := by
  cases hq : d.queue with
  | nil =>
      refine ⟨by simp [get_next, hq], fun _ => by simp [get_next, hq], ?_⟩
      intro id h
      simp [get_next, hq] at h
  | cons hd rest =>
      refine ⟨by simp [get_next, hq], fun h => by simp [get_next, hq] at h, ?_⟩
      intro id h
      have hid : hd = id := by simpa [get_next, hq] using h
      subst hid
      refine ⟨by simp [hq], ?_, by simp [get_next, hq], by simp [get_next, hq],
        by simp [get_next, hq], by simp [get_next, hq], fun hst => ?_⟩
      · simp [get_next, hq, List.erase_cons_head]
      · simpa [get_next, hq] using hst

/-- Claim C2: one `refresh()` sets every `Available` job whose
`<ingest-dir>/<id>.epub` artifact is missing to `Done` with a fresh
timestamp, leaves every `Available` job whose artifact exists unchanged
(status and timestamp), and the artifact check touches no other status:
a non-`Available` status either survives unchanged or — only when it is
`Done` — is removed by the separate TTL pass. -/
theorem claim_C2 (d : BookQueueData) (fs : String → Bool) (now : Nat)
    (hWF : WF d) (i : String) :
    (alLookup i d.status = some .Available → fs i = false →
        alLookup i (refresh_internal fs now d).status = some .Done ∧
          alLookup i (refresh_internal fs now d).status_timestamps =
            some now) ∧
      (alLookup i d.status = some .Available → fs i = true →
        alLookup i (refresh_internal fs now d).status = some .Available ∧
          alLookup i (refresh_internal fs now d).status_timestamps =
            alLookup i d.status_timestamps) ∧
      ∀ st, alLookup i d.status = some st → st ≠ .Available →
        alLookup i (refresh_internal fs now d).status = some st ∨
          (st = .Done ∧
            alLookup i (refresh_internal fs now d).status = none) := by
  have hnd := hWF.2.1
  refine ⟨fun hst hfs => ?_, fun hst hfs => ?_, fun st hst hne => ?_⟩
  · rw [refresh_status_lookup fs now d i hnd,
      refresh_ts_lookup fs now d i hnd, hst]
    simp [hfs]
  · rw [refresh_status_lookup fs now d i hnd,
      refresh_ts_lookup fs now d i hnd, hst]
    simp [hfs]
  · rw [refresh_status_lookup fs now d i hnd, hst]
    cases st with
    | Available => exact absurd rfl hne
    | Done =>
        by_cases hstale : isStale now d i = true <;> simp [hstale]
    | Queued => simp
    | Downloading => simp
    | Error => simp

theorem claim_C2_witness :
    WF (update_status "b1" .Available 1
        (add "b1" (BookInfo.new "b1" "T") 0 (new 3600))) ∧
      alLookup "b1" (update_status "b1" .Available 1
          (add "b1" (BookInfo.new "b1" "T") 0 (new 3600))).status =
        some .Available ∧
      (fun (_ : String) => false) "b1" = false ∧
      (alLookup "b1" (refresh_internal (fun _ => false) 2
          (update_status "b1" .Available 1
            (add "b1" (BookInfo.new "b1" "T") 0 (new 3600)))).status =
          some .Done ∧
        alLookup "b1" (refresh_internal (fun _ => false) 2
            (update_status "b1" .Available 1
              (add "b1" (BookInfo.new "b1" "T") 0 (new 3600)))).status_timestamps =
          some 2) :=
  ⟨by decide, by decide, rfl,
    (claim_C2 (update_status "b1" .Available 1
        (add "b1" (BookInfo.new "b1" "T") 0 (new 3600)))
      (fun _ => false) 2 (by decide) "b1").1 (by decide) rfl⟩

set_option maxRecDepth 4096 in
/-- Claim C3: after `set_status_timeout(0)`, one `refresh()` removes —
from all four structures — every job that was `Done` with positive
elapsed time, removes no job of any other status however old, and does
not remove a job it promotes `Available`→`Done` in that same call. -/
theorem claim_C3 (d : BookQueueData) (fs : String → Bool) (now : Nat)
    (hWF : WF d) :
    (∀ i ts, alLookup i d.status = some .Done →
        alLookup i d.status_timestamps = some ts → ts < now →
        alLookup i (refresh_internal fs now
            (set_status_timeout 0 d)).status = none ∧
          alLookup i (refresh_internal fs now
            (set_status_timeout 0 d)).status_timestamps = none ∧
          alLookup i (refresh_internal fs now
            (set_status_timeout 0 d)).book_data = none ∧
          i ∉ (refresh_internal fs now (set_status_timeout 0 d)).queue) ∧
      (∀ i st, alLookup i d.status = some st → st ≠ QueueStatus.Done →
        (alLookup i (refresh_internal fs now
          (set_status_timeout 0 d)).status).isSome) ∧
      ∀ i, alLookup i d.status = some .Available → fs i = false →
        alLookup i (refresh_internal fs now
          (set_status_timeout 0 d)).status = some .Done := by
  have hWF0 : WF (set_status_timeout 0 d) := WF_set_status_timeout 0 hWF
  have hnd : (alKeys (set_status_timeout 0 d).status).Nodup := hWF0.2.1
  refine ⟨fun i ts hst hts hlt => ?_, fun i st hst hne => ?_,
    fun i hst hfs => ?_⟩
  · have hstale : isStale now (set_status_timeout 0 d) i = true := by
      have hts0 : alLookup i (set_status_timeout 0 d).status_timestamps =
          some ts := by rw [set_status_timeout_ts]; exact hts
      have htimeout : (set_status_timeout 0 d).status_timeout = 0 := rfl
      simp only [isStale, hts0, htimeout, gt_iff_lt, decide_eq_true_eq]
      omega
    have hst0 : alLookup i (set_status_timeout 0 d).status =
        some .Done := by rw [set_status_timeout_status]; exact hst
    refine ⟨?_, ?_, ?_, ?_⟩
    · rw [refresh_status_lookup fs now _ i hnd, hst0]
      simp [hstale]
    · rw [refresh_ts_lookup fs now _ i hnd, hst0]
      simp [hstale]
    · rw [refresh_book_lookup fs now _ i hnd]
      simp [hst0, hstale]
    · rw [refresh_queue_mem fs now _ i hnd]
      rintro ⟨-, hneg⟩
      exact hneg ⟨hst0, hstale⟩
  · have hst0 : alLookup i (set_status_timeout 0 d).status = some st := by
      rw [set_status_timeout_status]; exact hst
    rw [refresh_status_lookup fs now _ i hnd, hst0]
    cases st with
    | Done => exact absurd rfl hne
    | Available =>
        by_cases hfs : fs i <;> simp [hfs]
    | Queued => simp
    | Downloading => simp
    | Error => simp
  · have hst0 : alLookup i (set_status_timeout 0 d).status =
        some .Available := by rw [set_status_timeout_status]; exact hst
    rw [refresh_status_lookup fs now _ i hnd, hst0]
    simp [hfs]

theorem claim_C3_witness :
    WF (update_status "b1" .Done 0
        (add "b1" (BookInfo.new "b1" "T") 0 (new 3600))) ∧
      alLookup "b1" (update_status "b1" .Done 0
          (add "b1" (BookInfo.new "b1" "T") 0 (new 3600))).status =
        some .Done ∧
      alLookup "b1" (update_status "b1" .Done 0
          (add "b1" (BookInfo.new "b1" "T") 0 (new 3600))).status_timestamps =
        some 0 ∧
      (0 : Nat) < 1 ∧
      (alLookup "b1" (refresh_internal (fun _ => true) 1
          (set_status_timeout 0 (update_status "b1" .Done 0
            (add "b1" (BookInfo.new "b1" "T") 0 (new 3600))))).status = none ∧
        alLookup "b1" (refresh_internal (fun _ => true) 1
            (set_status_timeout 0 (update_status "b1" .Done 0
              (add "b1" (BookInfo.new "b1" "T") 0
                (new 3600))))).status_timestamps = none ∧
        alLookup "b1" (refresh_internal (fun _ => true) 1
            (set_status_timeout 0 (update_status "b1" .Done 0
              (add "b1" (BookInfo.new "b1" "T") 0 (new 3600))))).book_data =
          none ∧
        "b1" ∉ (refresh_internal (fun _ => true) 1
            (set_status_timeout 0 (update_status "b1" .Done 0
              (add "b1" (BookInfo.new "b1" "T") 0 (new 3600))))).queue) :=
  ⟨by decide, by decide, by decide, by decide,
    (claim_C3 (update_status "b1" .Done 0
        (add "b1" (BookInfo.new "b1" "T") 0 (new 3600)))
      (fun _ => true) 1 (by decide)).1 "b1" 0 (by decide) (by decide)
      (by decide)⟩

/-- Claim C9 (amended): `refresh` never moves a status except
`Available`→`Done`, but `update_status` applies any requested status to
a present identifier without validating transition order, so backward
moves such as `Downloading`→`Queued` are reachable through
`update_status`; happy-path monotonicity is not enforced by the Queue
Manager, only by its callers. -/
theorem claim_C9 (d : BookQueueData) (hWF : WF d) :
    (∀ (fs : String → Bool) (now : Nat) (i : String) st st',
        alLookup i d.status = some st →
        alLookup i (refresh_internal fs now d).status = some st' →
        st' = st ∨ (st = .Available ∧ st' = .Done)) ∧
      ∀ (i : String) (st : QueueStatus) (now : Nat),
        (alLookup i d.status).isSome →
        alLookup i (update_status i st now d).status = some st := by
  have hnd := hWF.2.1
  constructor
  · intro fs now i st st' hst hst'
    rw [refresh_status_lookup fs now d i hnd, hst] at hst'
    cases st with
    | Available =>
        by_cases hfs : fs i
        · simp [hfs] at hst'
          exact Or.inl hst'.symm
        · simp [hfs] at hst'
          exact Or.inr ⟨rfl, hst'.symm⟩
    | Done =>
        by_cases hstale : isStale now d i = true
        · simp [hstale] at hst'
        · simp [hstale] at hst'
          exact Or.inl hst'.symm
    | Queued => exact Or.inl (Option.some.inj hst').symm
    | Downloading => exact Or.inl (Option.some.inj hst').symm
    | Error => exact Or.inl (Option.some.inj hst').symm
  · intro i st now hsome
    rw [update_status, if_pos hsome]
    simp [update_status_internal, alLookup_alUpdate]

theorem claim_C9_witness :
    WF (add "a" (BookInfo.new "a" "T") 0 (new 3600)) ∧
      (alLookup "a" (add "a" (BookInfo.new "a" "T") 0
          (new 3600)).status).isSome ∧
      alLookup "a" (update_status "a" .Downloading 1
          (add "a" (BookInfo.new "a" "T") 0 (new 3600))).status =
        some .Downloading :=
  ⟨by decide, by decide,
    (claim_C9 (add "a" (BookInfo.new "a" "T") 0 (new 3600))
      (by decide)).2 "a" .Downloading 1 (by decide)⟩

/-- Claim C9, the claim as frozen, refuted: `update_status` is a
reachable Queue Manager step that moves a job backward,
`Downloading`→`Queued`. -/
theorem claim_C9_counterexample :
    alLookup "a" (update_status "a" .Downloading 1
        (add "a" (BookInfo.new "a" "T") 0 (new 3600))).status =
      some .Downloading ∧
      alLookup "a" (update_status "a" .Queued 2
          (update_status "a" .Downloading 1
            (add "a" (BookInfo.new "a" "T") 0 (new 3600)))).status =
        some .Queued ∧
      QueueStatus.Downloading ≠ QueueStatus.Queued := by
  refine ⟨by decide, by decide, by decide⟩

/-- Claim C1: immediately after `add(i, r)` on any well-formed queue
state, the `get_status()` snapshot lists `i` under `Queued` exactly
once, mapped to `r`, and in no other group — the refresh that
`get_status` runs first never removes or demotes the fresh `Queued`
entry. -/
theorem claim_C1 (d : BookQueueData) (i : String) (r : BookInfo)
    (now now2 : Nat) (fs : String → Bool) (hWF : WF d) :
    alLookup i ((get_status fs now2 (add i r now d)).2 .Queued) = some r ∧
      (alKeys ((get_status fs now2 (add i r now d)).2 .Queued)).count i
        = 1 ∧
      ∀ st, st ≠ QueueStatus.Queued →
        i ∉ alKeys ((get_status fs now2 (add i r now d)).2 st) := by
  have hWF1 : WF (add i r now d) := WF_add i r now hWF
  have hnd1 : (alKeys (add i r now d).status).Nodup := hWF1.2.1
  have hst1 : alLookup i (add i r now d).status = some .Queued := by
    simp [add, update_status_internal, alLookup_alUpdate]
  have hbk1 : alLookup i (add i r now d).book_data = some r := by
    simp [add, update_status_internal, alLookup_alUpdate]
  have hWF2 : WF (refresh_internal fs now2 (add i r now d)) :=
    WF_refresh_internal fs now2 hWF1
  have hnd2 := hWF2.2.1
  have hst2 : alLookup i (refresh_internal fs now2 (add i r now d)).status =
      some .Queued := by
    rw [refresh_status_lookup fs now2 _ i hnd1, hst1]
  have hbk2 : alLookup i
      (refresh_internal fs now2 (add i r now d)).book_data = some r := by
    rw [refresh_book_lookup fs now2 _ i hnd1, hbk1]
    simp [hst1]
  have hgs : (get_status fs now2 (add i r now d)).2 =
      snapshotGroup (refresh_internal fs now2 (add i r now d)) := rfl
  rw [hgs]
  have hsnap : (i, r) ∈
      snapshotGroup (refresh_internal fs now2 (add i r now d)) .Queued :=
    (mem_snapshotGroup hnd2).mpr ⟨hst2, hbk2⟩
  have hsnd := alKeys_snapshotGroup_nodup hnd2 QueueStatus.Queued
  refine ⟨alLookup_eq_some_of_mem hsnd hsnap, ?_, fun st hne hmem => ?_⟩
  · exact List.count_eq_one_of_mem hsnd (mem_alKeys.mpr ⟨r, hsnap⟩)
  · obtain ⟨b, hb⟩ := mem_alKeys.mp hmem
    have := ((mem_snapshotGroup hnd2).mp hb).1
    rw [hst2] at this
    exact hne (Option.some.inj this).symm

theorem claim_C1_witness :
    WF (new 3600) ∧
      alLookup "b1" ((get_status (fun _ => true) 4
          (add "b1" (BookInfo.new "b1" "T") 3 (new 3600))).2 .Queued) =
        some (BookInfo.new "b1" "T") ∧
      (alKeys ((get_status (fun _ => true) 4
          (add "b1" (BookInfo.new "b1" "T") 3 (new 3600))).2 .Queued)).count
          "b1" = 1 :=
  ⟨by decide,
    (claim_C1 (new 3600) "b1" (BookInfo.new "b1" "T") 3 4 (fun _ => true)
      (by decide)).1,
    (claim_C1 (new 3600) "b1" (BookInfo.new "b1" "T") 3 4 (fun _ => true)
      (by decide)).2.1⟩

theorem claim_C10_witness :
    "b1" ∈ (add "b1" (BookInfo.new "b1" "T") 5 (new 3600)).queue ∧
      (get_next (add "b1" (BookInfo.new "b1" "T") 5 (new 3600))).2.queue =
        (add "b1" (BookInfo.new "b1" "T") 5 (new 3600)).queue.erase "b1" ∧
      (get_next (add "b1" (BookInfo.new "b1" "T") 5 (new 3600))).2.status =
        (add "b1" (BookInfo.new "b1" "T") 5 (new 3600)).status ∧
      (get_next (add "b1" (BookInfo.new "b1" "T") 5 (new 3600))).2.book_data =
        (add "b1" (BookInfo.new "b1" "T") 5 (new 3600)).book_data ∧
      (get_next (add "b1" (BookInfo.new "b1" "T") 5 (new 3600))).2.status_timestamps =
        (add "b1" (BookInfo.new "b1" "T") 5 (new 3600)).status_timestamps ∧
      (get_next (add "b1" (BookInfo.new "b1" "T") 5 (new 3600))).2.status_timeout =
        (add "b1" (BookInfo.new "b1" "T") 5 (new 3600)).status_timeout ∧
      (alLookup "b1" (add "b1" (BookInfo.new "b1" "T") 5 (new 3600)).status =
          some .Queued →
        alLookup "b1"
            (get_next (add "b1" (BookInfo.new "b1" "T") 5 (new 3600))).2.status =
          some .Queued) :=
  (claim_C10 (add "b1" (BookInfo.new "b1" "T") 5 (new 3600))).2.2 "b1" rfl

end BookQueue

/-! ### Claim theorems for `src/book_manager.rs` -/

theorem download_book_from_eq_none_iff (fetch : String → Option (List Nat))
    (path : String) :
    ∀ urls, download_book_from fetch path urls = none ↔
      ∀ u ∈ urls, fetch u = none
  | [] => by simp [download_book_from]
  | url :: rest => by
      cases hf : fetch url with
      | some data => simp [download_book_from, hf]
      | none =>
          simp [download_book_from, hf,
            download_book_from_eq_none_iff fetch path rest]

theorem download_book_from_first_success
    (fetch : String → Option (List Nat)) (path : String) :
    ∀ (pre : List String) (u : String) (post : List String)
      (data : List Nat), (∀ v ∈ pre, fetch v = none) →
      fetch u = some data →
      download_book_from fetch path (pre ++ u :: post) = some (path, data)
  | [], u, post, data, _, hu => by simp [download_book_from, hu]
  | v :: pre, u, post, data, hpre, hu => by
      have hv : fetch v = none := hpre v (List.mem_cons_self v pre)
      simp only [List.cons_append, download_book_from, hv]
      exact download_book_from_first_success fetch path pre u post data
        (fun w hw => hpre w (List.mem_cons_of_mem v hw)) hu

/-- Claim C6: `download_book` tries the record's candidate URLs strictly
in list order; the first successful fetch has its payload written to
`<tmp-dir>/<id>.<format>` and ends the attempt sequence, an early
failure does not abort it, and the all-mirrors-failed error is returned
exactly when every URL (in particular, each of an empty list) fails. -/
theorem claim_C6 (fetch : String → Option (List Nat)) (tmp_dir : String)
    (b : BookInfo) :
    (download_book fetch tmp_dir b = none ↔
        ∀ u ∈ b.download_urls, fetch u = none) ∧
      ∀ (pre : List String) (u : String) (post : List String)
        (data : List Nat), b.download_urls = pre ++ u :: post →
        (∀ v ∈ pre, fetch v = none) → fetch u = some data →
        download_book fetch tmp_dir b =
          some (staging_path tmp_dir b, data) := by
  constructor
  · exact download_book_from_eq_none_iff fetch
      (staging_path tmp_dir b) b.download_urls
  · intro pre u post data hurls hpre hu
    rw [download_book, hurls]
    exact download_book_from_first_success fetch
      (staging_path tmp_dir b) pre u post data hpre hu

theorem claim_C6_witness :
    ({ BookInfo.new "x" "T" with
          format := some "epub",
          download_urls := ["u1", "u2"] } : BookInfo).download_urls =
        ["u1"] ++ "u2" :: [] ∧
      (∀ v ∈ ["u1"],
        (fun u => if u = "u2" then some [7, 9] else none) v = none) ∧
      (fun u => if u = "u2" then some [7, 9] else none) "u2" = some [7, 9] ∧
      download_book (fun u => if u = "u2" then some [7, 9] else none) "/tmp"
          { BookInfo.new "x" "T" with
              format := some "epub", download_urls := ["u1", "u2"] } =
        some (staging_path "/tmp"
          { BookInfo.new "x" "T" with
              format := some "epub", download_urls := ["u1", "u2"] }, [7, 9]) :=
  ⟨rfl, by decide, by decide,
    (claim_C6 (fun u => if u = "u2" then some [7, 9] else none) "/tmp"
        { BookInfo.new "x" "T" with
            format := some "epub", download_urls := ["u1", "u2"] }).2
      ["u1"] "u2" [] [7, 9] rfl (by decide) (by decide)⟩

/-- Claim C7, the claim as frozen, refuted: on a row whose title cell
contains two text nodes, the extracted title is the first text node
("Book "), not the concatenation of all text nodes ("Book Title"). -/
theorem claim_C7_counterexample :
    (parse_search_result_row rowWithSplitTitle).map BookInfo.title =
        some "Book " ∧
      String.join ((rowWithSplitTitle.cells.getD 1 emptyCell).texts) =
        "Book Title" ∧
      ("Book " : String) ≠ "Book Title" :=
  ⟨rfl, rfl, by decide⟩

/-- Claim C7 (amended): for every row with at least eleven cells whose
first cell's first anchor carries an `href`, each extracted field is the
FIRST text node of its fixed-index cell (title cell 1, author 2,
publisher 3, year 4, language 7, format 9, size 10), empty when the
cell has no text node; the id is the last `/`-segment of the `href` and
the preview is the first image's `src`. -/
theorem claim_C7 (row : SearchRow) (href : String)
    (hlen : 11 ≤ row.cells.length)
    (ha : (row.cells.getD 0 emptyCell).anchorHrefs.head? =
      some (some href)) :
    parse_search_result_row row = some
      { id := (href.splitOn "/").getLastD ""
        preview := Option.join (row.cells.getD 0 emptyCell).imgSrcs.head?
        title := cellFirstText (row.cells.getD 1 emptyCell)
        author := some (cellFirstText (row.cells.getD 2 emptyCell))
        publisher := some (cellFirstText (row.cells.getD 3 emptyCell))
        year := some (cellFirstText (row.cells.getD 4 emptyCell))
        language := some (cellFirstText (row.cells.getD 7 emptyCell))
        format := some (cellFirstText (row.cells.getD 9 emptyCell))
        size := some (cellFirstText (row.cells.getD 10 emptyCell))
        info := none
        download_urls := [] } := by
  obtain ⟨cells⟩ := row
  simp only at hlen ha ⊢
  rcases cells with _ | ⟨c0, cells⟩
  · simp at hlen
  rcases cells with _ | ⟨c1, cells⟩
  · simp at hlen
  rcases cells with _ | ⟨c2, cells⟩
  · simp at hlen
  rcases cells with _ | ⟨c3, cells⟩
  · simp at hlen
  rcases cells with _ | ⟨c4, cells⟩
  · simp at hlen
  rcases cells with _ | ⟨c5, cells⟩
  · simp at hlen
  rcases cells with _ | ⟨c6, cells⟩
  · simp at hlen
  rcases cells with _ | ⟨c7, cells⟩
  · simp at hlen
  rcases cells with _ | ⟨c8, cells⟩
  · simp at hlen
  rcases cells with _ | ⟨c9, cells⟩
  · simp at hlen
  rcases cells with _ | ⟨c10, cells⟩
  · simp at hlen
  simp only [List.getD_cons_zero, List.getD_cons_succ] at ha ⊢
  rw [parse_search_result_row]
  simp [ha]

theorem claim_C7_witness :
    11 ≤ rowWithSplitTitle.cells.length ∧
      (rowWithSplitTitle.cells.getD 0 emptyCell).anchorHrefs.head? =
        some (some "/book1") ∧
      parse_search_result_row rowWithSplitTitle = some
        { id := (("/book1" : String).splitOn "/").getLastD ""
          preview :=
            Option.join (rowWithSplitTitle.cells.getD 0 emptyCell).imgSrcs.head?
          title := cellFirstText (rowWithSplitTitle.cells.getD 1 emptyCell)
          author :=
            some (cellFirstText (rowWithSplitTitle.cells.getD 2 emptyCell))
          publisher :=
            some (cellFirstText (rowWithSplitTitle.cells.getD 3 emptyCell))
          year :=
            some (cellFirstText (rowWithSplitTitle.cells.getD 4 emptyCell))
          language :=
            some (cellFirstText (rowWithSplitTitle.cells.getD 7 emptyCell))
          format :=
            some (cellFirstText (rowWithSplitTitle.cells.getD 9 emptyCell))
          size :=
            some (cellFirstText (rowWithSplitTitle.cells.getD 10 emptyCell))
          info := none
          download_urls := [] } :=
  ⟨by decide, rfl, claim_C7 rowWithSplitTitle "/book1" (by decide) rfl⟩

/-- Claim C8, the bug exhibited: on a detail page whose main container
exists but has no descendant div (no marker glyph, so the fallback
anchor offset 3 is used), `parse_book_info_page` reaches the slice
`&divs[start_div_id + 3..]` with `6 > divs.len() = 0` and panics,
instead of degrading to default field values as the spec requires. -/
theorem claim_C8 :
    parse_book_info_page ⟨true, none, [], []⟩ "deadbeef" =
      ParseResult.panicked := by
  rfl

end CWA
